import Mathlib

/-!
Shallow embedding of the project-manifest composition engine
(`src/project/environment.rs` and the `LockFileUsage` conversion in
`src/cli/mod.rs`) of the pixi repository, together with proofs about the
aggregation algorithms (channels, platforms, system requirements,
dependencies, tasks) exposed by the `Environment` view.

Platforms, channels, package names, version specs and tasks are identified
by strings: the composition layer only ever compares them for identity.
-/

namespace Pixi

/-- Platforms are identified by their canonical string name
(for example "linux-64", "osx-64", "win-64"). -/
abbrev Platform := String

/-- A task is identified by its definition; composition only concerns which
task value wins per (name, platform), not its internal shape, so a task is
modelled by an opaque string payload. -/
abbrev Task := String

/-- A channel together with an optional integer priority, as written in the
manifest (`{channel = "nvidia", priority = 1}`; a bare string has no
priority). Channel identity is its locator string. -/
structure PrioritizedChannel where
  channel : String
  priority : Option Int
deriving DecidableEq

/-- The effective priority of a channel: a missing priority counts as 0
(`a.priority.unwrap_or(0)` in `Environment::channels`). -/
def effPriority (c : PrioritizedChannel) : Int :=
  c.priority.getD 0

/-- The kind of a dependency specification (`SpecType`): runtime, build or
host dependencies. -/
inductive SpecType where
  | run
  | build
  | host
deriving DecidableEq

/-- One target of a feature: the configuration fragment that applies either
scope-wide or to one specific platform. Dependency tables are optional per
kind, mirroring the manifest where a target may not declare a table at all. -/
structure Target where
  tasks : List (String × Task) := []
  run_dependencies : Option (List (String × String)) := none
  build_dependencies : Option (List (String × String)) := none
  host_dependencies : Option (List (String × String)) := none
  pypi_dependencies : Option (List (String × String)) := none
deriving DecidableEq

/-- The targets of a feature: the scope-wide (default) target plus the
platform-specific targets. -/
structure Targets where
  default_target : Target := {}
  platform_targets : List (Platform × Target) := []
deriving DecidableEq

/-- Modelled from the spec: `Targets::resolve` lives in the manifest module,
which is not among the provided sources. Per §2 ("Target resolution") and
§4.6 it yields, for a requested platform, the chain of applicable targets —
the platform-specific target (when a platform is requested and declared)
and the scope-wide target — ordered most specific first, which is what the
`.rev()` comment in `Environment::tasks` ("Reverse to get the most specific
targets last") requires of it. With no platform requested only the
scope-wide target applies. -/
def Targets.resolve (t : Targets) (platform : Option Platform) : List Target :=
  match platform with
  | none => [t.default_target]
  | some p =>
    (match t.platform_targets.lookup p with
     | some tgt => [tgt]
     | none => []) ++ [t.default_target]

/-- The name of a feature: the implicit default feature or a named one. -/
inductive FeatureName where
  | default
  | named (name : String)
deriving DecidableEq

/-- System requirements of a feature. Modelled from the spec: the
`SystemRequirements` record and its `union` live in the manifest module,
which is not among the provided sources. Per §3 it is a small record of
optional minimum-version fields and feature flags; per §4.4 the union is
field-wise (numerically higher version, flag-OR) and only a contradictory
field mismatch (modelled here as two different declared libc families) makes
the union undefined. -/
structure SystemRequirements where
  macos : Option Nat := none
  linux : Option Nat := none
  cuda : Option Nat := none
  libc : Option (String × Nat) := none
  virtualization : Bool := false
deriving DecidableEq

/-- Union of two optional minimum versions: the numerically higher wins. -/
def maxOpt : Option Nat → Option Nat → Option Nat
  | none, b => b
  | some a, none => some a
  | some a, some b => some (max a b)

/-- Union of two optional libc requirements: defined only when the declared
families agree, in which case the higher minimum version wins. -/
def unionLibc : Option (String × Nat) → Option (String × Nat) → Option (Option (String × Nat))
  | none, b => some b
  | some a, none => some (some a)
  | some (fa, va), some (fb, vb) =>
    if fa = fb then some (some (fa, max va vb)) else none

/-- Modelled from the spec: field-wise monotonic union of two
`SystemRequirements` records (§4.4): higher minimum version, flag-OR;
undefined (the `Err` the code `.expect`s away) exactly when the libc
families contradict. -/
def SystemRequirements.union (a b : SystemRequirements) : Option SystemRequirements :=
  (unionLibc a.libc b.libc).map fun l =>
    { macos := maxOpt a.macos b.macos
      linux := maxOpt a.linux b.linux
      cuda := maxOpt a.cuda b.cuda
      libc := l
      virtualization := a.virtualization || b.virtualization }

/-- A feature: a named fragment of configuration. `channels` and `platforms`
are `none` when the feature does not declare them. -/
structure Feature where
  name : FeatureName
  channels : Option (List PrioritizedChannel) := none
  platforms : Option (List Platform) := none
  system_requirements : SystemRequirements := {}
  targets : Targets := {}
deriving DecidableEq

/-- The manifest-level record of an environment: its name and the ordered
list of named-feature references (the default feature is never listed but
always implied). -/
structure ManifestEnvironment where
  name : String
  features : List String
deriving DecidableEq

/-- The project-level data the `Environment` view reads: default channels,
default platforms, the named features and the default feature. -/
structure Project where
  name : String := ""
  channels : List PrioritizedChannel := []
  platforms : List Platform := []
  features : List (String × Feature) := []
  default_feature : Feature := { name := .default }
deriving DecidableEq

/-- The `Environment` view: a project together with one of its manifest
environments (`Environment<'p>` holds the two references). -/
structure Environment where
  project : Project
  environment : ManifestEnvironment
deriving DecidableEq

/-- The name of the environment (`Environment::name`). -/
def Environment.name (env : Environment) : String :=
  env.environment.name

/-- The features that make up an environment, in declared order, with the
default feature always appended at the end (`Environment::features`).
The named-feature lookup is backed by `.expect("feature usage should have
been validated upfront")` in the source; a missing name here falls back to
an empty feature, a case manifest validation rules out. -/
def Environment.features (env : Environment) : List Feature :=
  env.environment.features.map (fun n =>
    (env.project.features.lookup n).getD { name := .named n })
  ++ [env.project.default_feature]

/-- The channel list a feature contributes (the `filter_map` body of
`Environment::channels`): a named feature contributes its declared channels
or nothing; only for the default feature are the project-wide default
channels substituted when it declares none. -/
def featureChannels (p : Project) (f : Feature) : Option (List PrioritizedChannel) :=
  match f.name with
  | .named _ => f.channels
  | .default =>
    match f.channels with
    | some cs => some cs
    | none => some p.channels

/-- Stable insertion of a channel into a descending-priority list: the new
channel goes before the first strictly lower-priority entry, after all
entries of greater or equal priority. -/
def orderedInsertDesc (c : PrioritizedChannel) : List PrioritizedChannel → List PrioritizedChannel
  | [] => [c]
  | d :: ds =>
    if effPriority d ≤ effPriority c then c :: d :: ds
    else d :: orderedInsertDesc c ds

/-- Stable sort by priority descending, the semantics of the
`sorted_by(|a, b| b.cmp(&a))` call in `Environment::channels` (itertools
`sorted_by` is a stable sort). -/
def sortByPriorityDesc : List PrioritizedChannel → List PrioritizedChannel
  | [] => []
  | c :: cs => orderedInsertDesc c (sortByPriorityDesc cs)

/-- Deduplication keeping the first occurrence: the semantics of collecting
into an `IndexSet` (a later insert of a present element is a no-op). -/
def dedupFirst (l : List String) : List String :=
  l.foldl (fun acc x => if x ∈ acc then acc else acc ++ [x]) []

/-- The concatenation, in feature-precedence order, of the channel lists the
environment's features contribute (before sorting and deduplication). -/
def Environment.channelContributions (env : Environment) : List PrioritizedChannel :=
  (env.features.filterMap (featureChannels env.project)).flatten

/-- The channels associated with an environment (`Environment::channels`):
contributions of all features in precedence order, stable-sorted by
priority descending, mapped to their channel identity and deduplicated
keeping the first occurrence. -/
def Environment.channels (env : Environment) : List String :=
  dedupFirst ((sortByPriorityDesc env.channelContributions).map (·.channel))

/-- The platform set a single feature supports: its declared platforms, or
the project-wide platforms when it declares none. -/
def featurePlatforms (p : Project) (f : Feature) : List Platform :=
  match f.platforms with
  | some ps => ps
  | none => p.platforms

/-- The platforms an environment is compatible with
(`Environment::platforms`): the intersection of the platform sets of all
its features (`reduce` over `HashSet::intersection`, empty when there are
no features — a case that cannot arise since the default feature is always
present). -/
def Environment.platforms (env : Environment) : List Platform :=
  match env.features.map (featurePlatforms env.project) with
  | [] => []
  | s :: rest => rest.foldl (fun acc t => acc.filter (· ∈ t)) s

/-- The error returned when a requested platform is not supported by the
environment; carries the environment's supported platforms, the environment
name and the requested platform. -/
structure UnsupportedPlatformError where
  environments_platforms : List Platform
  environment : String
  platform : Platform
deriving DecidableEq

/-- The error returned when a task cannot be found; carries the environment
name, the requested platform and the task name (the source also stores a
reference to the project, used only for rendering the diagnostic). -/
structure UnknownTask where
  environment : String
  platform : Option Platform
  task_name : String
deriving DecidableEq

/-- Validates that the given platform, when one is requested, is supported
by this environment (`Environment::validate_platform_support`). -/
def Environment.validate_platform_support (env : Environment)
    (platform : Option Platform) : Except UnsupportedPlatformError Unit :=
  match platform with
  | some p =>
    if p ∈ env.platforms then .ok ()
    else .error
      { environments_platforms := env.platforms
        environment := env.name
        platform := p }
  | none => .ok ()

/-- Lookup in a hash map built by collecting an insertion sequence: the last
inserted binding for a key wins, so the lookup finds the last pair of the
sequence with the given key. -/
def mapGet (l : List (String × Task)) (name : String) : Option Task :=
  (l.reverse.find? (fun p => p.1 = name)).map (·.2)

/-- The tasks defined for an environment (`Environment::tasks`): after
validating platform support, the resolved targets of all features are
flattened, reversed (so the most specific targets come last) and their task
tables collected into a map where later insertions overwrite earlier ones.
The returned list is that insertion sequence; `mapGet` gives the resulting
map's lookup. -/
def Environment.tasks (env : Environment) (platform : Option Platform) :
    Except UnsupportedPlatformError (List (String × Task)) :=
  match env.validate_platform_support platform with
  | .error e => .error e
  | .ok _ =>
    .ok (((env.features.flatMap (fun f => f.targets.resolve platform)).reverse).flatMap
      (fun t => t.tasks))

/-- The task with the given name for the specified platform
(`Environment::task`): any error from `tasks` and a missing name both
collapse to `UnknownTask`. -/
def Environment.task (env : Environment) (name : String) (platform : Option Platform) :
    Except UnknownTask Task :=
  match (env.tasks platform).map (fun ts => mapGet ts name) with
  | .error _ =>
    .error { environment := env.name, platform := platform, task_name := name }
  | .ok none =>
    .error { environment := env.name, platform := platform, task_name := name }
  | .ok (some t) => .ok t

/-- The dependency table a target declares for a requested kind. Modelled
from the spec: `Target::dependencies` lives in the manifest module, which is
not among the provided sources; per §4.5 and the glossary the kind filters
aggregation, and no kind filter selects every kind. -/
def Target.dependencies (t : Target) (kind : Option SpecType) : Option (List (String × String)) :=
  match kind with
  | some .run => t.run_dependencies
  | some .build => t.build_dependencies
  | some .host => t.host_dependencies
  | none =>
    match t.run_dependencies, t.build_dependencies, t.host_dependencies with
    | none, none, none => none
    | r, b, h => some (r.getD [] ++ b.getD [] ++ h.getD [])

/-- Inserts one (package, value) pair into an ordered per-package table the
way `IndexMap::entry(name).or_default().push(spec)` does: the value is
appended to the existing entry for the package, or a fresh entry is appended
at the end. -/
def addSpec (m : List (String × List String)) (name : String) (spec : String) :
    List (String × List String) :=
  match m with
  | [] => [(name, [spec])]
  | (n, ss) :: rest =>
    if n = name then (n, ss ++ [spec]) :: rest
    else (n, ss) :: addSpec rest name spec

/-- The ordered list of requirements a per-package table holds for a
package (empty when the package has no entry). -/
def specsOf (m : List (String × List String)) (name : String) : List String :=
  ((m.find? (fun p => p.1 = name)).map (·.2)).getD []

/-- Builds a per-package requirement table from one feature's dependency
map (`Dependencies::from`): every package maps to the singleton list of its
spec. Modelled from the spec: `Dependencies` lives outside the provided
sources; §3 describes it as an ordered mapping from package name to an
ordered sequence of requirements. -/
def depsFrom (m : List (String × String)) : List (String × List String) :=
  m.foldl (fun acc p => addSpec acc p.1 p.2) []

/-- Union of two per-package requirement tables (`Dependencies::union`).
Modelled from the spec: for each package name, the second table's
requirements are appended (not replacing) onto the package's existing
ordered list (§4.5). -/
def depsUnion (acc deps : List (String × List String)) : List (String × List String) :=
  deps.foldl (fun a e => e.2.foldl (fun m s => addSpec m e.1 s) a) acc

/-- Layers one target's dependency entries over an accumulated map: an
already-present package keeps its position but takes the new value, a new
package is appended (`IndexMap` insert semantics). -/
def overrideEntries (acc entries : List (String × String)) : List (String × String) :=
  entries.foldl
    (fun m e =>
      if (m.lookup e.1).isSome
      then m.map (fun q => if q.1 = e.1 then (q.1, e.2) else q)
      else m ++ [e])
    acc

/-- Modelled from the spec: `Feature::dependencies` lives in the manifest
module, which is not among the provided sources. Per §4.5 the feature
resolves its targets for the requested platform (§4.6) and, per §2, the
platform-specific fragment is layered over the scope-wide fragment, so the
scope-wide entries are taken first and the more specific target's entries
override per package. A feature whose resolved targets declare no table of
the requested kind contributes nothing (`None`). -/
def Feature.dependencies (f : Feature) (kind : Option SpecType) (platform : Option Platform) :
    Option (List (String × String)) :=
  match (f.targets.resolve platform).filterMap (fun t => t.dependencies kind) with
  | [] => none
  | ts => some (ts.reverse.foldl overrideEntries [])

/-- The dependencies to install for an environment
(`Environment::dependencies`): every feature's contribution, in precedence
order, turned into a requirement table and combined with the appending
union; an environment with no contributions yields the empty table. -/
def Environment.dependencies (env : Environment) (kind : Option SpecType)
    (platform : Option Platform) : List (String × List String) :=
  match (env.features.filterMap (fun f => f.dependencies kind platform)).map depsFrom with
  | [] => []
  | d :: ds => ds.foldl depsUnion d

/-- Modelled from the spec: `Feature::pypi_dependencies` lives in the
manifest module, which is not among the provided sources. Analogous to
`Feature::dependencies` for the pypi table (§4.5). -/
def Feature.pypi_dependencies (f : Feature) (platform : Option Platform) :
    Option (List (String × String)) :=
  match (f.targets.resolve platform).filterMap (fun t => t.pypi_dependencies) with
  | [] => none
  | ts => some (ts.reverse.foldl overrideEntries [])

/-- A clone-on-write value: a feature's pypi contribution reaches the
accumulator either borrowed or owned. -/
inductive Cow (α : Type) where
  | borrowed (val : α)
  | owned (val : α)

/-- The entry sequence drawn from a `Cow` contribution, mirroring the
`match` in `Environment::pypi_dependencies`: the borrowed arm clones every
(name, spec) pair, the owned arm moves the entries out. -/
def cowEntries : Cow (List (String × String)) → List (String × String)
  | .borrowed b => b.map (fun p => (p.1, p.2))
  | .owned o => o

/-- The pypi dependencies of an environment, parameterised by how each
contribution is wrapped (`borrow i = true` wraps the `i`-th contribution
borrowed, otherwise owned): the fold of `Environment::pypi_dependencies`,
pushing every entry into the accumulator via
`entry(name).or_default().push(spec)`. -/
def Environment.pypi_dependencies_with (env : Environment) (platform : Option Platform)
    (borrow : Nat → Bool) : List (String × List String) :=
  (((env.features.filterMap (fun f => f.pypi_dependencies platform)).enum).map
    (fun e => if borrow e.1 then Cow.borrowed e.2 else Cow.owned e.2)).foldl
    (fun acc cow => (cowEntries cow).foldl (fun a p => addSpec a p.1 p.2) acc) []

/-- The pypi dependencies to install for an environment
(`Environment::pypi_dependencies`); whether a contribution arrives borrowed
or owned is decided inside `Feature::pypi_dependencies`, abstracted here as
"all owned". -/
def Environment.pypi_dependencies (env : Environment) (platform : Option Platform) :
    List (String × List String) :=
  env.pypi_dependencies_with platform (fun _ => false)

/-- The tri-state lock-file usage policy (`LockFileUsage`). -/
inductive LockFileUsage where
  | Update
  | Locked
  | Frozen
deriving DecidableEq

/-- The CLI flags governing lock-file usage (`LockFileUsageArgs`): two
boolean flags that clap marks mutually exclusive
(`conflicts_with`). -/
structure LockFileUsageArgs where
  frozen : Bool
  locked : Bool
deriving DecidableEq

/-- The conversion `From<LockFileUsageArgs> for LockFileUsage`. -/
def lockFileUsageFromArgs (v : LockFileUsageArgs) : LockFileUsage :=
  if v.frozen then .Frozen
  else if v.locked then .Locked
  else .Update

/-- The system requirements of an environment
(`Environment::system_requirements`): the fold of the field-wise union over
all features, starting from the permissive default record. The source
`.expect`s every step; the fold is `none` exactly when some step's union is
undefined. -/
def Environment.system_requirements (env : Environment) : Option SystemRequirements :=
  (env.features.map (·.system_requirements)).foldl
    (fun acc r => acc.bind (fun a => a.union r)) (some {})

/-- Scans a list of targets in order and returns the first task definition
found for the name (each target's task map queried in turn). -/
def targetScan : List Target → String → Option Task
  | [], _ => none
  | t :: ts, name =>
    match mapGet t.tasks name with
    | some v => some v
    | none => targetScan ts name

/-- The platform-specific targets a feature contributes for a requested
platform: the resolved chain without its scope-wide target. -/
def Feature.specificTargets (f : Feature) (platform : Option Platform) : List Target :=
  match platform with
  | none => []
  | some p =>
    match f.targets.platform_targets.lookup p with
    | some t => [t]
    | none => []

/-- The task-assignment rule as claim C1 words it, written independently of
the code for comparison: a platform-specific target beats a scope-wide
target at any feature precedence (all platform-specific targets are
consulted first, in feature-precedence order), and only then are the
scope-wide targets consulted, again in feature-precedence order with the
default feature last. -/
def claimTaskRule (env : Environment) (platform : Option Platform) (name : String) : Option Task :=
  match targetScan (env.features.flatMap (fun f => f.specificTargets platform)) name with
  | some v => some v
  | none => targetScan (env.features.map (fun f => f.targets.default_target)) name

/-- The requirements a single feature contributes for one package under the
given filters, in the order they appear in its contribution. -/
def featureSpecsFor (f : Feature) (kind : Option SpecType) (platform : Option Platform)
    (name : String) : List String :=
  match f.dependencies kind platform with
  | none => []
  | some m => (m.filter (fun e => e.1 = name)).map (·.2)

/-- All values a raw dependency map carries for one package, in entry
order. -/
def multiLookup (m : List (String × String)) (name : String) : List String :=
  (m.filter (fun e => e.1 = name)).map (·.2)

/-- A channel entry written as a bare string: no declared priority. -/
def chanNamed (n : String) : PrioritizedChannel :=
  { channel := n, priority := none }

/-- A channel entry with an explicit priority. -/
def chanPrio (n : String) (p : Int) : PrioritizedChannel :=
  { channel := n, priority := some p }

/-- The project of the channel-priority scenario: default channel
conda-forge, feature foo with channels [nvidia at priority 1, pytorch],
feature bar with channels [bar at priority -10, barry]. -/
def channelsProject : Project :=
  { name := "foobar"
    channels := [chanNamed "conda-forge"]
    platforms := ["linux-64", "osx-64"]
    features :=
      [("foo", { name := .named "foo"
                 channels := some [chanPrio "nvidia" 1, chanNamed "pytorch"] }),
       ("bar", { name := .named "bar"
                 channels := some [chanPrio "bar" (-10), chanNamed "barry"] })]
    default_feature := { name := .default } }

/-- The environment combining features foo and bar (plus the implicit
default feature) in the channel-priority scenario. -/
def channelsEnv : Environment :=
  { project := channelsProject
    environment := { name := "foobar", features := ["foo", "bar"] } }

/-- A project with platforms [linux-64, osx-64] and no features beyond the
default one. -/
def platformsProject : Project :=
  { name := "foobar"
    channels := []
    platforms := ["linux-64", "osx-64"]
    features := []
    default_feature := { name := .default } }

/-- The default environment of `platformsProject`. -/
def platformsEnv : Environment :=
  { project := platformsProject
    environment := { name := "default", features := [] } }

/-- A feature defining the task "t" only in its scope-wide target. -/
def generalFeature : Feature :=
  { name := .named "f1"
    targets := { default_target := { tasks := [("t", "general1")] } } }

/-- A feature defining the task "t" only in its linux-64-specific target. -/
def specificFeature : Feature :=
  { name := .named "f2"
    targets := { platform_targets := [("linux-64", { tasks := [("t", "specific2")] })] } }

/-- A project whose environment "e" lists `generalFeature` before
`specificFeature`: used to separate feature precedence from target
specificity in task resolution. -/
def layeringProject : Project :=
  { platforms := ["linux-64"]
    features := [("f1", generalFeature), ("f2", specificFeature)]
    default_feature := { name := .default } }

/-- The environment listing [f1, f2] of `layeringProject`. -/
def layeringEnv : Environment :=
  { project := layeringProject
    environment := { name := "e", features := ["f1", "f2"] } }

/-- The project of the dependency-union scenario: top-level dependency
foo = "*", feature foo with foo = ">=1.0", feature bar with bar = ">=1.0"
and foo = "<2.0". -/
def depsProject : Project :=
  { platforms := ["linux-64", "osx-64"]
    features :=
      [("foo", { name := .named "foo"
                 targets := { default_target :=
                   { run_dependencies := some [("foo", ">=1.0")] } } }),
       ("bar", { name := .named "bar"
                 targets := { default_target :=
                   { run_dependencies := some [("bar", ">=1.0"), ("foo", "<2.0")] } } })]
    default_feature :=
      { name := .default
        targets := { default_target := { run_dependencies := some [("foo", "*")] } } } }

/-- The environment listing [foo, bar] of `depsProject`. -/
def depsEnv : Environment :=
  { project := depsProject
    environment := { name := "foobar", features := ["foo", "bar"] } }

/-- A project whose default feature and cuda feature declare overlapping,
compatible system requirements. -/
def requirementsProject : Project :=
  { platforms := ["linux-64"]
    features :=
      [("cuda", { name := .named "cuda"
                  system_requirements := { cuda := some 12, libc := some ("glibc", 2) } })]
    default_feature :=
      { name := .default
        system_requirements :=
          { linux := some 5, libc := some ("glibc", 3), virtualization := true } } }

/-- The environment listing [cuda] of `requirementsProject`. -/
def requirementsEnv : Environment :=
  { project := requirementsProject
    environment := { name := "cuda", features := ["cuda"] } }

/-- C10: when the platform argument is absent, platform-support validation
is skipped entirely: for every environment — including one whose computed
platform set is empty — `validate_platform_support` succeeds and `tasks`
returns a task map rather than an `UnsupportedPlatformError` (dependency
queries return plain values and can produce no such error at all). -/
theorem c10_no_platform_skips_validation (env : Environment) :
    env.validate_platform_support none = .ok () ∧ (env.tasks none).isOk = true :=
  ⟨rfl, rfl⟩

/-- C9: the conversion from the CLI lock-usage flags to the `LockFileUsage`
policy maps the frozen flag to `Frozen`, the locked flag (with frozen
unset) to `Locked`, and neither flag to `Update`; under the CLI's mutual
exclusion of the two flags, exactly one of the three policy values results
from every valid flag combination. -/
theorem c9_lockfile_usage (v : LockFileUsageArgs)
    (hexcl : ¬(v.frozen = true ∧ v.locked = true)) :
    (lockFileUsageFromArgs v = .Frozen ↔ v.frozen = true)
    ∧ (lockFileUsageFromArgs v = .Locked ↔ v.locked = true)
    ∧ (lockFileUsageFromArgs v = .Update ↔ (v.frozen = false ∧ v.locked = false)) := by
  rcases v with ⟨f, l⟩
  cases f <;> cases l <;> simp_all [lockFileUsageFromArgs]

/-- Witness for C9 at the concrete flag combination frozen = false,
locked = true. -/
theorem c9_lockfile_usage_witness :
    lockFileUsageFromArgs { frozen := false, locked := true } = .Locked :=
  (c9_lockfile_usage { frozen := false, locked := true } (by decide)).2.1.mpr rfl

/-- C8: in `pypi_dependencies`, the borrowing path (cloning entries out of
a borrowed per-feature map) and the owning path (moving entries from an
owned map) produce identical results: the output is independent of which
contributions arrive borrowed and which owned. -/
theorem c8_pypi_borrow_owned_equal (env : Environment) (platform : Option Platform)
    (b₁ b₂ : Nat → Bool) :
    env.pypi_dependencies_with platform b₁ = env.pypi_dependencies_with platform b₂ := by
  unfold Environment.pypi_dependencies_with
  rw [List.foldl_map, List.foldl_map]
  apply List.foldl_ext
  intro acc e _
  have hb : ∀ b : Bool,
      cowEntries (if b then Cow.borrowed e.2 else Cow.owned e.2) = e.2 := by
    intro b
    cases b <;> simp [cowEntries]
  rw [hb, hb]

/-- C6: the substitution of the project-wide default channel list applies
only to the default feature: a named feature with no declared channels
contributes nothing to the aggregated channel sequence (dropping it leaves
the contribution stream unchanged), while the default feature with no
declared channels contributes exactly the project-wide default channel
list. -/
theorem c6_default_only_substitution (p : Project) :
    (∀ f s, f.name = .named s → f.channels = none → featureChannels p f = none)
    ∧ (∀ f, f.name = .default → f.channels = none → featureChannels p f = some p.channels)
    ∧ (∀ (fs₁ fs₂ : List Feature) (f : Feature) (s : String),
        f.name = .named s → f.channels = none →
        ((fs₁ ++ f :: fs₂).filterMap (featureChannels p)).flatten
          = ((fs₁ ++ fs₂).filterMap (featureChannels p)).flatten) := by
  refine ⟨?_, ?_, ?_⟩
  · intro f s hn hc
    simp [featureChannels, hn, hc]
  · intro f hn hc
    simp [featureChannels, hn, hc]
  · intro fs₁ fs₂ f s hn hc
    simp [List.filterMap_append, List.filterMap_cons, featureChannels, hn, hc]

/-- Witness for C6: a channel-less named feature contributes nothing and
dropping it from a feature sequence leaves the contributions unchanged,
while the channel-less default feature contributes the project defaults. -/
theorem c6_default_only_substitution_witness :
    featureChannels channelsProject { name := .named "baz" } = none
    ∧ featureChannels channelsProject { name := .default }
        = some [chanNamed "conda-forge"]
    ∧ (([{ name := .named "baz" }, { name := .default }] : List Feature).filterMap
        (featureChannels channelsProject)).flatten
      = (([{ name := .default }] : List Feature).filterMap
        (featureChannels channelsProject)).flatten :=
  ⟨(c6_default_only_substitution channelsProject).1 _ "baz" rfl rfl,
   (c6_default_only_substitution channelsProject).2.1 _ rfl rfl,
   (c6_default_only_substitution channelsProject).2.2 [] [{ name := .default }] _ "baz" rfl rfl⟩

/-- The stable insertion step permutes: inserting a channel yields a
permutation of consing it. -/
theorem perm_orderedInsertDesc (c : PrioritizedChannel) (l : List PrioritizedChannel) :
    List.Perm (orderedInsertDesc c l) (c :: l) := by
  induction l with
  | nil => exact List.Perm.refl _
  | cons d ds ih =>
    unfold orderedInsertDesc
    split
    · exact List.Perm.refl _
    · exact (ih.cons d).trans (List.Perm.swap c d ds)

/-- The stable sort permutes its input. -/
theorem perm_sortByPriorityDesc (l : List PrioritizedChannel) :
    List.Perm (sortByPriorityDesc l) l := by
  induction l with
  | nil => exact List.Perm.refl _
  | cons c cs ih => exact (perm_orderedInsertDesc c _).trans (ih.cons c)

/-- The stable insertion step preserves descending effective priority. -/
theorem pairwise_orderedInsertDesc (c : PrioritizedChannel) (l : List PrioritizedChannel)
    (h : l.Pairwise (fun a b => effPriority b ≤ effPriority a)) :
    (orderedInsertDesc c l).Pairwise (fun a b => effPriority b ≤ effPriority a) := by
  induction l with
  | nil => simp [orderedInsertDesc]
  | cons d ds ih =>
    rw [List.pairwise_cons] at h
    obtain ⟨hd, hds⟩ := h
    unfold orderedInsertDesc
    split
    case isTrue hle =>
      rw [List.pairwise_cons]
      refine ⟨?_, List.pairwise_cons.mpr ⟨hd, hds⟩⟩
      intro x hx
      rcases List.mem_cons.mp hx with rfl | hx'
      · exact hle
      · exact le_trans (hd x hx') hle
    case isFalse hgt =>
      rw [List.pairwise_cons]
      refine ⟨?_, ih hds⟩
      intro x hx
      rcases List.mem_cons.mp ((perm_orderedInsertDesc c ds).mem_iff.mp hx) with rfl | hx'
      · exact le_of_lt (lt_of_not_le hgt)
      · exact hd x hx'

/-- The stable sort output has nonincreasing effective priorities. -/
theorem pairwise_sortByPriorityDesc (l : List PrioritizedChannel) :
    (sortByPriorityDesc l).Pairwise (fun a b => effPriority b ≤ effPriority a) := by
  induction l with
  | nil => simp [sortByPriorityDesc]
  | cons c cs ih => exact pairwise_orderedInsertDesc c _ ih

/-- Stability of the insertion step: within one effective-priority class the
inserted element lands in front (it is never carried past an equal
priority). -/
theorem filter_orderedInsertDesc (c : PrioritizedChannel) (l : List PrioritizedChannel) (k : Int) :
    (orderedInsertDesc c l).filter (fun x => effPriority x = k)
      = if effPriority c = k
        then c :: l.filter (fun x => effPriority x = k)
        else l.filter (fun x => effPriority x = k) := by
  induction l with
  | nil =>
    simp only [orderedInsertDesc, List.filter]
    split <;> simp_all
  | cons d ds ih =>
    unfold orderedInsertDesc
    split
    case isTrue hle =>
      rw [List.filter_cons]
      split <;> simp_all
    case isFalse hgt =>
      rw [List.filter_cons, List.filter_cons, ih]
      have hdk : effPriority c = k → ¬(effPriority d = k) := by
        intro hck hdk'
        exact hgt (le_of_eq (hdk'.trans hck.symm))
      by_cases hck : effPriority c = k
      · simp [hck, hdk hck]
      · simp [hck]

/-- Stability of the stable sort: each effective-priority class keeps its
relative input order (its filtered subsequence is unchanged). -/
theorem filter_sortByPriorityDesc (l : List PrioritizedChannel) (k : Int) :
    (sortByPriorityDesc l).filter (fun x => effPriority x = k)
      = l.filter (fun x => effPriority x = k) := by
  induction l with
  | nil => rfl
  | cons c cs ih =>
    unfold sortByPriorityDesc
    rw [filter_orderedInsertDesc, ih, List.filter_cons]
    split <;> simp_all

/-- C2: `channels` returns the concatenation, in feature-precedence order,
of the features' contributed channel lists, stable-sorted by effective
priority descending (missing priority counts as 0; the sort permutes the
contributions, orders them by nonincreasing priority, and keeps each
priority class in first-seen order) and deduplicated by channel identity
keeping the first occurrence; on the concrete priority scenario the result
order is exactly [nvidia, pytorch, barry, conda-forge, bar]. -/
theorem c2_channel_aggregation (env : Environment) :
    env.channels = dedupFirst ((sortByPriorityDesc env.channelContributions).map (·.channel))
    ∧ List.Perm (sortByPriorityDesc env.channelContributions) env.channelContributions
    ∧ (sortByPriorityDesc env.channelContributions).Pairwise
        (fun a b => effPriority b ≤ effPriority a)
    ∧ (∀ k : Int, (sortByPriorityDesc env.channelContributions).filter
          (fun x => effPriority x = k)
        = env.channelContributions.filter (fun x => effPriority x = k))
    ∧ channelsEnv.channels = ["nvidia", "pytorch", "barry", "conda-forge", "bar"] :=
  ⟨rfl, perm_sortByPriorityDesc _, pairwise_sortByPriorityDesc _,
   fun k => filter_sortByPriorityDesc _ k, by decide⟩

/-- Folding set intersections (filter by membership) computes exactly the
common members. -/
theorem foldl_filter_mem (p : Platform) (rest : List (List Platform)) (s : List Platform) :
    p ∈ rest.foldl (fun acc t => acc.filter (· ∈ t)) s ↔ p ∈ s ∧ ∀ t ∈ rest, p ∈ t := by
  induction rest generalizing s with
  | nil => simp
  | cons t ts ih =>
    rw [List.foldl_cons, ih]
    simp [List.mem_filter, and_assoc]

/-- Membership in the computed platform set of an environment is membership
in every feature's platform set. -/
theorem mem_platforms_iff (env : Environment) (p : Platform) :
    p ∈ env.platforms ↔ ∀ f ∈ env.features, p ∈ featurePlatforms env.project f := by
  have hne : env.features.map (featurePlatforms env.project) ≠ [] := by
    simp [Environment.features]
  obtain ⟨s, rest, hm⟩ := List.exists_cons_of_ne_nil hne
  have hplat : env.platforms = rest.foldl (fun acc t => acc.filter (· ∈ t)) s := by
    unfold Environment.platforms
    rw [hm]
  have hall : (∀ t ∈ s :: rest, p ∈ t)
      ↔ ∀ f ∈ env.features, p ∈ featurePlatforms env.project f := by
    rw [← hm]
    simp
  rw [hplat, foldl_filter_mem, ← hall]
  simp [List.forall_mem_cons]

/-- C5: the platform set of an environment is the intersection over all its
features of each feature's platform set (the project-wide set when the
feature declares none), and requesting tasks for a platform outside that
set fails with an `UnsupportedPlatformError` carrying the environment name,
the requested platform and the full supported set; with project platforms
[linux-64, osx-64] and no feature overrides the set is exactly those two
platforms and requesting win-64 fails listing them. -/
theorem c5_platform_intersection (env : Environment) :
    (∀ p, p ∈ env.platforms ↔ ∀ f ∈ env.features, p ∈ featurePlatforms env.project f)
    ∧ (∀ p, p ∉ env.platforms →
        env.tasks (some p) = .error
          { environments_platforms := env.platforms
            environment := env.name
            platform := p })
    ∧ platformsEnv.platforms = ["linux-64", "osx-64"]
    ∧ platformsEnv.tasks (some "win-64") = .error
        { environments_platforms := ["linux-64", "osx-64"]
          environment := "default"
          platform := "win-64" } := by
  refine ⟨mem_platforms_iff env, ?_, by decide, rfl⟩
  intro p hp
  simp [Environment.tasks, Environment.validate_platform_support, hp]

/-- Witness for C5 at the concrete project with platforms
[linux-64, osx-64]: requesting win-64 errors with the full supported set. -/
theorem c5_platform_intersection_witness :
    platformsEnv.tasks (some "win-64") = .error
      { environments_platforms := platformsEnv.platforms
        environment := platformsEnv.name
        platform := "win-64" } :=
  (c5_platform_intersection platformsEnv).2.1 "win-64" (by decide)

/-- C4: `task` returns an error exactly when the requested platform is
unsupported, or when it is supported but the computed task map holds no
task of that name; in both cases the returned error is the single value
`UnknownTask` carrying the environment name, the platform and the task
name, so the two causes are not distinguishable from the error. -/
theorem c4_unknown_task (env : Environment) (name : String) (platform : Option Platform) :
    (env.task name platform
        = .error { environment := env.name, platform := platform, task_name := name }
      ↔ ((∃ p, platform = some p ∧ p ∉ env.platforms)
         ∨ (¬(∃ p, platform = some p ∧ p ∉ env.platforms)
            ∧ ∀ ts, env.tasks platform = .ok ts → mapGet ts name = none)))
    ∧ (∀ e, env.task name platform = .error e
        → e = { environment := env.name, platform := platform, task_name := name }) := by
  by_cases hsupp : ∃ p, platform = some p ∧ p ∉ env.platforms
  · obtain ⟨p, rfl, hp⟩ := hsupp
    have htask : env.task name (some p)
        = .error { environment := env.name, platform := some p, task_name := name } := by
      simp [Environment.task, Environment.tasks, Environment.validate_platform_support,
        Except.map, hp]
    refine ⟨?_, ?_⟩
    · rw [htask]
      simp only [true_iff]
      exact Or.inl ⟨p, rfl, hp⟩
    · intro e he
      rw [htask] at he
      exact (Except.error.inj he.symm)
  · have hok : ∃ L, env.tasks platform = .ok L := by
      rcases hplat : platform with _ | p
      · exact ⟨_, rfl⟩
      · have hp : p ∈ env.platforms := by
          by_contra hp'
          exact hsupp ⟨p, hplat, hp'⟩
        exact ⟨((env.features.flatMap (fun f => f.targets.resolve (some p))).reverse).flatMap
            (fun t => t.tasks),
          by simp [Environment.tasks, Environment.validate_platform_support, hp]⟩
    obtain ⟨L, hL⟩ := hok
    have hstep : env.task name platform
        = match mapGet L name with
          | none => .error { environment := env.name, platform := platform, task_name := name }
          | some t => .ok t := by
      unfold Environment.task
      rw [hL]
      cases hmg2 : mapGet L name <;> simp [Except.map, hmg2]
    cases hmg : mapGet L name with
    | none =>
      have htask : env.task name platform
          = .error { environment := env.name, platform := platform, task_name := name } := by
        rw [hstep, hmg]
      refine ⟨?_, ?_⟩
      · rw [htask]
        simp only [true_iff]
        refine Or.inr ⟨hsupp, ?_⟩
        intro ts hts
        have hLts : L = ts := Except.ok.inj (hL.symm.trans hts)
        exact hLts ▸ hmg
      · intro e he
        rw [htask] at he
        exact (Except.error.inj he.symm)
    | some t =>
      have htask : env.task name platform = .ok t := by
        rw [hstep, hmg]
      refine ⟨?_, ?_⟩
      · rw [htask]
        constructor
        · intro h
          exact absurd h (by simp)
        · rintro (h | ⟨-, hall⟩)
          · exact absurd h hsupp
          · have := hall L hL
            rw [hmg] at this
            cases this
      · intro e he
        rw [htask] at he
        cases he

/-- Witness for C4: on the layering fixture, an undefined task name on a
supported platform produces the `UnknownTask` error carrying the
environment name, the platform and the task name. -/
theorem c4_unknown_task_witness :
    layeringEnv.task "nope" (some "linux-64")
      = .error { environment := layeringEnv.name
                 platform := some "linux-64"
                 task_name := "nope" } :=
  (c4_unknown_task layeringEnv "nope" (some "linux-64")).1.mpr
    (Or.inr ⟨by rintro ⟨p, hp, hnp⟩; cases hp; exact hnp (by decide),
      by intro ts hts; cases hts; decide⟩)

/-- Last-insertion-wins lookup over an appended insertion sequence prefers
the later block. -/
theorem mapGet_append (a b : List (String × Task)) (name : String) :
    mapGet (a ++ b) name
      = match mapGet b name with
        | some v => some v
        | none => mapGet a name := by
  unfold mapGet
  rw [List.reverse_append, List.find?_append]
  cases b.reverse.find? (fun p => p.1 = name) <;> simp [Option.or]

/-- Collecting the reversed target chain into a last-wins map and looking a
name up is a first-match scan of the chain in its original order. -/
theorem mapGet_reverse_flatMap (L : List Target) (name : String) :
    mapGet ((L.reverse).flatMap (fun t => t.tasks)) name = targetScan L name := by
  induction L with
  | nil => rfl
  | cons t ts ih =>
    have h1 : ([t].flatMap fun tgt => tgt.tasks) = t.tasks := by simp
    rw [List.reverse_cons, List.flatMap_append, mapGet_append, h1, ih]
    rfl

/-- C1 (amended): the task mapping assigns to each name the definition
found by scanning the features in precedence order (the default feature
appended last) and, within each feature, its platform-specific target
before its scope-wide target: the highest-precedence feature defining the
task wins, preferring its platform-specific definition; the default
feature's scope-wide definition applies only when no feature defines the
task in any applicable target. -/
theorem c1_task_resolution (env : Environment) (platform : Option Platform) (name : String)
    (ts : List (String × Task)) (h : env.tasks platform = .ok ts) :
    mapGet ts name
      = targetScan (env.features.flatMap (fun f => f.targets.resolve platform)) name := by
  have hts : ts = ((env.features.flatMap (fun f => f.targets.resolve platform)).reverse).flatMap
      (fun t => t.tasks) := by
    unfold Environment.tasks at h
    cases hv : env.validate_platform_support platform with
    | error e =>
      rw [hv] at h
      cases h
    | ok u =>
      rw [hv] at h
      exact (Except.ok.inj h).symm
  rw [hts, mapGet_reverse_flatMap]

/-- Witness for C1 (amended) on the layering fixture: the computed task map
for platform linux-64 resolves "t" by the feature-precedence-first scan. -/
theorem c1_task_resolution_witness :
    mapGet [("t", "specific2"), ("t", "general1")] "t"
      = targetScan (layeringEnv.features.flatMap
          (fun f => f.targets.resolve (some "linux-64"))) "t" :=
  c1_task_resolution layeringEnv (some "linux-64") "t"
    [("t", "specific2"), ("t", "general1")] rfl

/-- Counterexample to C1 as stated: on `layeringEnv` at platform linux-64
the code assigns task "t" the scope-wide definition of the earlier-listed
feature, while the claimed rule — a platform-specific target beats a
scope-wide target at any precedence — picks the later feature's
platform-specific definition. -/
theorem c1_task_specificity_counterexample :
    (Environment.tasks layeringEnv (some "linux-64")).map (fun ts => mapGet ts "t")
        = .ok (some "general1")
    ∧ claimTaskRule layeringEnv (some "linux-64") "t" = some "specific2"
    ∧ ("general1" : Task) ≠ "specific2" :=
  ⟨rfl, rfl, by decide⟩

/-- Lookup into a per-package table takes the first matching entry. -/
theorem specsOf_cons (a : String × List String) (rest : List (String × List String))
    (q : String) :
    specsOf (a :: rest) q = if a.1 = q then a.2 else specsOf rest q := by
  by_cases h : a.1 = q
  · simp [specsOf, List.find?_cons_of_pos, h]
  · simp [specsOf, List.find?_cons_of_neg, h]

/-- Pushing one value appends it to exactly the matching package's list. -/
theorem specsOf_addSpec (m : List (String × List String)) (n s q : String) :
    specsOf (addSpec m n s) q = specsOf m q ++ if q = n then [s] else [] := by
  induction m with
  | nil =>
    by_cases h : q = n
    · subst h
      simp [addSpec, specsOf_cons, specsOf]
    · have h' : ¬(n = q) := fun hh => h hh.symm
      simp [addSpec, specsOf_cons, specsOf, h, h']
  | cons e rest ih =>
    rcases e with ⟨n', ss⟩
    unfold addSpec
    by_cases h1 : n' = n
    · rw [if_pos h1, specsOf_cons, specsOf_cons]
      by_cases h2 : n' = q
      · rw [if_pos h2, if_pos h2, if_pos (h2.symm.trans h1)]
      · rw [if_neg h2, if_neg h2, if_neg (fun hqn => h2 (h1.trans hqn.symm))]
        simp
    · rw [if_neg h1, specsOf_cons, specsOf_cons, ih]
      by_cases h2 : n' = q
      · rw [if_pos h2, if_pos h2, if_neg (fun hqn => h1 (h2.trans hqn))]
        simp
      · rw [if_neg h2, if_neg h2]

/-- Splitting the per-package value run of a raw map at its head entry. -/
theorem multiLookup_cons (e : String × String) (rest : List (String × String)) (q : String) :
    multiLookup (e :: rest) q = (if q = e.1 then [e.2] else []) ++ multiLookup rest q := by
  unfold multiLookup
  by_cases h : e.1 = q
  · subst h
    simp [List.filter_cons]
  · have h' : ¬(q = e.1) := fun hh => h hh.symm
    simp [List.filter_cons, h, h']

/-- Folding a raw dependency map into a table appends, per package, exactly
that map's values in order. -/
theorem specsOf_foldl_addSpec (m : List (String × String))
    (a : List (String × List String)) (q : String) :
    specsOf (m.foldl (fun acc p => addSpec acc p.1 p.2) a) q
      = specsOf a q ++ multiLookup m q := by
  induction m generalizing a with
  | nil => simp [multiLookup]
  | cons e rest ih =>
    rw [List.foldl_cons, ih, specsOf_addSpec, multiLookup_cons]
    rw [List.append_assoc]

/-- The table built from one feature's dependency map holds, per package,
exactly that map's values. -/
theorem specsOf_depsFrom (m : List (String × String)) (q : String) :
    specsOf (depsFrom m) q = multiLookup m q := by
  unfold depsFrom
  rw [specsOf_foldl_addSpec]
  simp [specsOf]

/-- Pushing a run of values for one package appends them to that package's
list. -/
theorem specsOf_foldl_inner (ss : List String) (n : String)
    (a : List (String × List String)) (q : String) :
    specsOf (ss.foldl (fun m s => addSpec m n s) a) q
      = specsOf a q ++ if q = n then ss else [] := by
  induction ss generalizing a with
  | nil => split <;> simp
  | cons s rest ih =>
    rw [List.foldl_cons, ih, specsOf_addSpec]
    by_cases h : q = n
    · simp [h]
    · simp [h]

/-- The appending union: per package, the second table's values are
appended onto the first table's list. -/
theorem specsOf_depsUnion (a d : List (String × List String)) (q : String) :
    specsOf (depsUnion a d) q
      = specsOf a q ++ d.flatMap (fun e => if q = e.1 then e.2 else []) := by
  unfold depsUnion
  induction d generalizing a with
  | nil => simp
  | cons e rest ih =>
    rw [List.foldl_cons, ih, specsOf_foldl_inner]
    simp [List.flatMap_cons]

/-- The keys of a table after one push: unchanged when the package was
present, extended by the package otherwise. -/
theorem keys_addSpec (m : List (String × List String)) (n s : String) :
    (addSpec m n s).map (·.1)
      = if n ∈ m.map (·.1) then m.map (·.1) else m.map (·.1) ++ [n] := by
  induction m with
  | nil => simp [addSpec]
  | cons e rest ih =>
    unfold addSpec
    by_cases h1 : e.1 = n
    · simp [h1]
    · have : ¬(n = e.1) := fun hh => h1 hh.symm
      rw [if_neg h1]
      by_cases h2 : n ∈ rest.map (·.1)
      · simp [ih, h2, this]
      · simp [ih, h2, this]

/-- Pushes keep table keys duplicate-free. -/
theorem keysNodup_addSpec (m : List (String × List String)) (n s : String)
    (h : (m.map (·.1)).Nodup) : ((addSpec m n s).map (·.1)).Nodup := by
  rw [keys_addSpec]
  by_cases hm : n ∈ m.map (·.1)
  · simpa [hm] using h
  · simp [hm, List.nodup_append, h]

/-- Tables built from a raw dependency map have duplicate-free keys. -/
theorem keysNodup_depsFrom (m : List (String × String)) :
    ((depsFrom m).map (·.1)).Nodup := by
  unfold depsFrom
  have main : ∀ (a : List (String × List String)), (a.map (·.1)).Nodup →
      ((m.foldl (fun acc p => addSpec acc p.1 p.2) a).map (·.1)).Nodup := by
    induction m with
    | nil => intro a ha; simpa using ha
    | cons e rest ih =>
      intro a ha
      rw [List.foldl_cons]
      exact ih _ (keysNodup_addSpec a e.1 e.2 ha)
  exact main [] (by simp)

/-- Over a table with duplicate-free keys, gathering every matching entry's
values equals the first-match lookup. -/
theorem flatMap_eq_specsOf (tbl : List (String × List String)) (q : String)
    (h : (tbl.map (·.1)).Nodup) :
    tbl.flatMap (fun e => if q = e.1 then e.2 else []) = specsOf tbl q := by
  induction tbl with
  | nil => rfl
  | cons e rest ih =>
    rw [List.map_cons, List.nodup_cons] at h
    rw [List.flatMap_cons, specsOf_cons]
    by_cases hq : q = e.1
    · subst hq
      have hrest : rest.flatMap (fun e' => if e.1 = e'.1 then e'.2 else []) = [] := by
        rw [List.flatMap_eq_nil_iff]
        intro x hx
        have hne : e.1 ≠ x.1 := by
          intro hqx
          apply h.1
          rw [hqx]
          exact List.mem_map_of_mem (·.1) hx
        rw [if_neg hne]
      simp [hrest]
    · have h' : ¬(e.1 = q) := fun hh => hq hh.symm
      simp [hq, h', ih h.2]

/-- Folding the appending union over feature tables accumulates, per
package, each feature's values in order. -/
theorem specsOf_foldl_depsUnion (ms : List (List (String × String)))
    (d : List (String × List String)) (q : String) :
    specsOf ((ms.map depsFrom).foldl depsUnion d) q
      = specsOf d q ++ ms.flatMap (fun m => multiLookup m q) := by
  induction ms generalizing d with
  | nil => simp
  | cons m rest ih =>
    rw [List.map_cons, List.foldl_cons, ih, specsOf_depsUnion,
      flatMap_eq_specsOf _ _ (keysNodup_depsFrom m), specsOf_depsFrom,
      List.flatMap_cons]
    simp

/-- Per-feature contributions flattened through the optional-contribution
filter agree with the flattened per-feature requirement lists. -/
theorem flatMap_featureSpecsFor (fs : List Feature) (kind : Option SpecType)
    (platform : Option Platform) (name : String) :
    fs.flatMap (fun f => featureSpecsFor f kind platform name)
      = (fs.filterMap (fun f => f.dependencies kind platform)).flatMap
          (fun m => multiLookup m name) := by
  induction fs with
  | nil => rfl
  | cons f rest ih =>
    rw [List.flatMap_cons, List.filterMap_cons]
    cases hd : f.dependencies kind platform with
    | none =>
      have hf : featureSpecsFor f kind platform name = [] := by
        simp [featureSpecsFor, hd]
      rw [hf, ih]
      simp
    | some m =>
      have hf : featureSpecsFor f kind platform name = multiLookup m name := by
        simp [featureSpecsFor, hd, multiLookup]
      rw [hf, ih, List.flatMap_cons]

/-- C3: for every environment, dependency-kind filter and platform filter,
the dependency table maps each package name to the ordered list obtained by
appending (never replacing) each contributing feature's requirements for
that package, in feature-precedence order with the default feature's
contribution last; on the concrete scenario, package foo maps to
[">=1.0", "<2.0", "*"] and package bar to [">=1.0"]. -/
theorem c3_dependency_append (env : Environment) (kind : Option SpecType)
    (platform : Option Platform) :
    (∀ name, specsOf (env.dependencies kind platform) name
        = env.features.flatMap (fun f => featureSpecsFor f kind platform name))
    ∧ specsOf (depsEnv.dependencies none none) "foo" = [">=1.0", "<2.0", "*"]
    ∧ specsOf (depsEnv.dependencies none none) "bar" = [">=1.0"] := by
  refine ⟨?_, by decide, by decide⟩
  intro name
  rw [flatMap_featureSpecsFor]
  unfold Environment.dependencies
  cases hc : env.features.filterMap (fun f => f.dependencies kind platform) with
  | nil => simp [specsOf]
  | cons c cs =>
    rw [List.map_cons]
    rw [specsOf_foldl_depsUnion, specsOf_depsFrom, List.flatMap_cons]

/-- The field-wise union is defined exactly when the libc union is. -/
theorem union_isSome (a b : SystemRequirements) :
    (a.union b).isSome = (unionLibc a.libc b.libc).isSome := by
  unfold SystemRequirements.union
  cases unionLibc a.libc b.libc <;> rfl

/-- Libc compatibility propagates through the union: a value compatible
with both operands is compatible with their union. -/
theorem unionLibc_compat (a b x l : Option (String × Nat))
    (hab : unionLibc a b = some l)
    (hax : (unionLibc a x).isSome) (hbx : (unionLibc b x).isSome) :
    (unionLibc l x).isSome := by
  rcases a with _ | ⟨fa, va⟩ <;> rcases b with _ | ⟨fb, vb⟩
  · simp only [unionLibc, Option.some.injEq] at hab
    subst hab
    exact hbx
  · simp only [unionLibc, Option.some.injEq] at hab
    subst hab
    exact hbx
  · simp only [unionLibc, Option.some.injEq] at hab
    subst hab
    exact hax
  · simp only [unionLibc] at hab
    split_ifs at hab with hf
    · simp only [Option.some.injEq] at hab
      subst hab
      rcases x with _ | ⟨fx, vx⟩
      · simp [unionLibc]
      · simp only [unionLibc] at hbx ⊢
        split_ifs at hbx with hbf
        · simp [hf.trans hbf]
        · simp at hbx

/-- Folding the field-wise union over a list of requirement records
succeeds whenever the start value is libc-compatible with every record and
the records are pairwise libc-compatible, and the result is the field-wise
maximum (or flag-OR) of all of them. -/
theorem system_requirements_fold (l : List SystemRequirements) (a : SystemRequirements)
    (hax : ∀ r ∈ l, (unionLibc a.libc r.libc).isSome)
    (hpair : ∀ r s, r ∈ l → s ∈ l → (unionLibc r.libc s.libc).isSome) :
    ∃ b, l.foldl (fun acc r => acc.bind (fun x => x.union r)) (some a) = some b
      ∧ b.macos = l.foldl (fun m r => maxOpt m r.macos) a.macos
      ∧ b.linux = l.foldl (fun m r => maxOpt m r.linux) a.linux
      ∧ b.cuda = l.foldl (fun m r => maxOpt m r.cuda) a.cuda
      ∧ b.virtualization = l.foldl (fun v r => v || r.virtualization) a.virtualization := by
  induction l generalizing a with
  | nil => exact ⟨a, rfl, rfl, rfl, rfl, rfl⟩
  | cons r rest ih =>
    have har : (unionLibc a.libc r.libc).isSome := hax r (List.mem_cons_self r rest)
    obtain ⟨lr, hlr⟩ := Option.isSome_iff_exists.mp har
    have hun : a.union r = some
        { macos := maxOpt a.macos r.macos
          linux := maxOpt a.linux r.linux
          cuda := maxOpt a.cuda r.cuda
          libc := lr
          virtualization := a.virtualization || r.virtualization } := by
      unfold SystemRequirements.union
      rw [hlr]
      rfl
    have hax' : ∀ s ∈ rest,
        (unionLibc (SystemRequirements.libc
          { macos := maxOpt a.macos r.macos
            linux := maxOpt a.linux r.linux
            cuda := maxOpt a.cuda r.cuda
            libc := lr
            virtualization := a.virtualization || r.virtualization }) s.libc).isSome := by
      intro s hs
      exact unionLibc_compat a.libc r.libc s.libc lr hlr
        (hax s (List.mem_cons_of_mem r hs))
        (hpair r s (List.mem_cons_self r rest) (List.mem_cons_of_mem r hs))
    have hpair' : ∀ r' s, r' ∈ rest → s ∈ rest → (unionLibc r'.libc s.libc).isSome :=
      fun r' s h1 h2 =>
        hpair r' s (List.mem_cons_of_mem r h1) (List.mem_cons_of_mem r h2)
    obtain ⟨b, hb, h2, h3, h4, h5⟩ := ih _ hax' hpair'
    refine ⟨b, ?_, ?_, ?_, ?_, ?_⟩
    · rw [List.foldl_cons]
      rw [show (some a).bind (fun x => x.union r) = a.union r from rfl, hun]
      exact hb
    · rw [List.foldl_cons]
      exact h2
    · rw [List.foldl_cons]
      exact h3
    · rw [List.foldl_cons]
      exact h4
    · rw [List.foldl_cons]
      exact h5

/-- C7: under the precondition that every pairwise union of the
environment's features' system requirements is defined (which manifest
validation guarantees), the fold in `system_requirements` never reaches the
failure branch, and the result is the field-wise monotonic union
(numerically higher version, flag-OR) of all contributing records. -/
theorem c7_system_requirements_total (env : Environment)
    (hpair : ∀ r s, r ∈ env.features.map (·.system_requirements)
      → s ∈ env.features.map (·.system_requirements)
      → (SystemRequirements.union r s).isSome) :
    ∃ b, env.system_requirements = some b
      ∧ b.macos = (env.features.map (·.system_requirements)).foldl
          (fun m r => maxOpt m r.macos) none
      ∧ b.linux = (env.features.map (·.system_requirements)).foldl
          (fun m r => maxOpt m r.linux) none
      ∧ b.cuda = (env.features.map (·.system_requirements)).foldl
          (fun m r => maxOpt m r.cuda) none
      ∧ b.virtualization = (env.features.map (·.system_requirements)).foldl
          (fun v r => v || r.virtualization) false := by
  have hpair' : ∀ r s, r ∈ env.features.map (·.system_requirements)
      → s ∈ env.features.map (·.system_requirements)
      → (unionLibc r.libc s.libc).isSome :=
    fun r s h1 h2 => (union_isSome r s) ▸ hpair r s h1 h2
  have hax : ∀ r ∈ env.features.map (·.system_requirements),
      (unionLibc (SystemRequirements.libc {}) r.libc).isSome := by
    intro r _
    rfl
  obtain ⟨b, hb, h2, h3, h4, h5⟩ :=
    system_requirements_fold (env.features.map (·.system_requirements)) {} hax hpair'
  exact ⟨b, hb, h2, h3, h4, h5⟩

/-- Witness for C7 on the concrete requirements fixture: the two records
share the glibc family, so the fold succeeds and yields the field-wise
maxima. -/
theorem c7_system_requirements_total_witness :
    ∃ b, requirementsEnv.system_requirements = some b
      ∧ b.macos = (requirementsEnv.features.map (·.system_requirements)).foldl
          (fun m r => maxOpt m r.macos) none
      ∧ b.linux = (requirementsEnv.features.map (·.system_requirements)).foldl
          (fun m r => maxOpt m r.linux) none
      ∧ b.cuda = (requirementsEnv.features.map (·.system_requirements)).foldl
          (fun m r => maxOpt m r.cuda) none
      ∧ b.virtualization = (requirementsEnv.features.map (·.system_requirements)).foldl
          (fun v r => v || r.virtualization) false :=
  c7_system_requirements_total requirementsEnv (by
    intro r s hr hs
    rw [show requirementsEnv.features.map (·.system_requirements)
        = [{ cuda := some 12, libc := some ("glibc", 2) },
           { linux := some 5, libc := some ("glibc", 3), virtualization := true }] from rfl]
      at hr hs
    fin_cases hr <;> fin_cases hs <;> decide)

end Pixi
